import Mathlib

/-!
Verification of the secure-ftp transfer-scheduling and folder-sync core.

This file shallowly embeds, in Lean 4, the parts of the repository that the
claims concern:

* the `Syncer` diff/execute engine (Go package `sync`, file sync.go):
  `needsSync`, `analyzeUpload`, `analyzeMirror`, and the `Execute` action loop;
* the `RateLimiter` token bucket (Go package `protocol`, file bandwidth.go):
  `NewRateLimiter`, `SetRate`, `GetRate`, and the refill/wait loop of `Wait`;
* the `ResumeManager` (Go package `transfer`, file resume.go):
  `GetIncomplete`;
* the `TransferManager` (Go package `transfer`, file transfer.go): the queue,
  history, active-count state, and the operations `addTransfer`,
  `processQueue`, `executeTransfer`'s epilogue, `Cancel`, `CancelAll`,
  `Pause`, `Resume`, `Retry`, `SetMaxParallel`, modelled as a step relation.

Go machine integers (`int`, `int64`) are modelled as `Int` (no operation here
comes near overflow and none relies on wrap-around); `time.Time` /
`time.Duration` values are modelled as `Int` nanosecond counts.  Go maps are
modelled as association lists; where the source iterates a map, the model
iterates the list in order (Go's map iteration order is unspecified; the
concrete claims below iterate at most one relevant entry per loop, so the
order does not matter for them).  Mutex acquisition/release is erased: each
lock-protected critical section of the source becomes one atomic step of the
model, and the `go ...` asynchronous triggers of `processQueue` become a
separate step that may fire at any time, which covers every interleaving of
the lock-protected sections.
-/

namespace SecureFtp

/-! ## Syncer: data model (sync.go) -/

/-- Go `SyncMode`. -/
inductive SyncMode where
  | modeUpload
  | modeDownload
  | modeMirror
  | modeBidirectional
deriving DecidableEq, Repr

/-- Go `CompareMethod`. -/
inductive CompareMethod where
  | compareByModTime
  | compareBySize
  | compareByHash
  | compareBySizeAndTime
deriving DecidableEq, Repr

/-- File metadata as the diff uses it: `Size` (bytes) and `ModTime`
(nanoseconds).  Stands for both `os.FileInfo` and `protocol.FileInfo` —
the diff reads only these two attributes from either. -/
structure FileMeta where
  size : Int
  modTime : Int
deriving DecidableEq, Repr

/-- Go `SyncOptions` (the fields the analyzed functions read; glob patterns
and hidden-file filtering act during tree scanning, before the maps that the
claims quantify over are built, so they are not re-modelled here). -/
structure SyncOptions where
  mode : SyncMode
  compareMethod : CompareMethod
  deleteExtra : Bool
  dryRun : Bool
deriving DecidableEq, Repr

/-- Go `SyncAction`. -/
structure SyncAction where
  type : String
  localPath : String
  remotePath : String
  reason : String
deriving DecidableEq, Repr

/-- Go `time.Second` in nanoseconds. -/
def nsPerSecond : Int := 1000000000

/-- `filepath.Join dir rel` for the clean, relative `rel` produced by the
tree scan (no `.`/`..` segments, so joining is separator concatenation). -/
def joinPath (dir rel : String) : String := dir ++ "/" ++ rel

/-- Go `Syncer.needsSync` (sync.go): compares two file metadata records under
the configured method.  The `ByModTime` and `BySizeAndTime` branches allow a
2-second tolerance on the modification-time difference. -/
def needsSync (opts : SyncOptions) (localInfo remoteInfo : FileMeta) : Bool :=
  match opts.compareMethod with
  | .compareBySize => localInfo.size != remoteInfo.size
  | .compareByModTime =>
      let diff := localInfo.modTime - remoteInfo.modTime
      let diff := if diff < 0 then -diff else diff
      diff > 2 * nsPerSecond
  | .compareBySizeAndTime =>
      if localInfo.size != remoteInfo.size then true
      else
        let diff := localInfo.modTime - remoteInfo.modTime
        let diff := if diff < 0 then -diff else diff
        diff > 2 * nsPerSecond
  | .compareByHash => true

/-- The loop body of Go `Syncer.analyzeUpload` (sync.go), iterating the
local-side entries in order: for every local file, upload it when it is
absent remotely, upload it when it needs sync **and** is strictly newer
(`ModTime().After`), and otherwise emit a skip action. -/
def analyzeUploadLoop (opts : SyncOptions) (localDir remoteDir : String)
    (remoteMap : List (String × FileMeta)) :
    List (String × FileMeta) → List SyncAction
  | [] => []
  | (relPath, localInfo) :: rest =>
      let localPath := joinPath localDir relPath
      let remotePath := joinPath remoteDir relPath
      let acc := analyzeUploadLoop opts localDir remoteDir remoteMap rest
      match remoteMap.lookup relPath with
      | some remoteInfo =>
          if needsSync opts localInfo remoteInfo && localInfo.modTime > remoteInfo.modTime then
            ⟨"upload", localPath, remotePath, "local file is newer"⟩ :: acc
          else
            ⟨"skip", localPath, remotePath, "files are identical or remote is newer"⟩ :: acc
      | none =>
          ⟨"upload", localPath, remotePath, "file does not exist on remote"⟩ :: acc

/-- Go `Syncer.analyzeUpload` (sync.go). -/
def analyzeUpload (opts : SyncOptions) (localDir remoteDir : String)
    (localMap : List (String × FileMeta)) (remoteMap : List (String × FileMeta)) :
    List SyncAction :=
  analyzeUploadLoop opts localDir remoteDir remoteMap localMap

/-- The deletion loop of Go `Syncer.analyzeMirror` (sync.go): a
`delete_remote` action (with `LocalPath` left at its zero value) for every
remote entry whose relative path is absent locally. -/
def mirrorDeletesLoop (remoteDir : String) (localMap : List (String × FileMeta)) :
    List (String × FileMeta) → List SyncAction
  | [] => []
  | (relPath, _) :: rest =>
      if (localMap.lookup relPath).isSome then
        mirrorDeletesLoop remoteDir localMap rest
      else
        ⟨"delete_remote", "", joinPath remoteDir relPath, "file does not exist locally"⟩ ::
          mirrorDeletesLoop remoteDir localMap rest

/-- Go `Syncer.analyzeMirror` (sync.go): the upload analysis, plus — when
`DeleteExtra` is set — the deletions for remote-only files. -/
def analyzeMirror (opts : SyncOptions) (localDir remoteDir : String)
    (localMap : List (String × FileMeta)) (remoteMap : List (String × FileMeta)) :
    List SyncAction :=
  analyzeUpload opts localDir remoteDir localMap remoteMap ++
    (if opts.deleteExtra then mirrorDeletesLoop remoteDir localMap remoteMap else [])

/-! ## Syncer: Execute (sync.go) -/

/-- Go `SyncResult` (the counters; `Errors` stays empty on the all-success
path the dry-run claim compares against, and `Duration` is wall-clock). -/
structure SyncResult where
  filesUploaded : Nat
  filesDownloaded : Nat
  filesDeleted : Nat
  filesSkipped : Nat
  bytesTransferred : Int
deriving DecidableEq, Repr

def SyncResult.empty : SyncResult := ⟨0, 0, 0, 0, 0⟩

/-- One externally visible mutation performed by `Execute`'s action loop: a
Transport call (`Upload`, `Download`, `Remove`) or the local `os.Remove`. -/
inductive EffectCall where
  | upload (localPath remotePath : String)
  | download (remotePath localPath : String)
  | removeRemote (remotePath : String)
  | removeLocal (localPath : String)
deriving DecidableEq, Repr

/-- Go `Syncer.Execute`, dry-run branch (sync.go): tally the planned actions
without touching the Transport or the local file system. -/
def tallyDryRun : List SyncAction → SyncResult
  | [] => SyncResult.empty
  | a :: rest =>
      let r := tallyDryRun rest
      match a.type with
      | "upload" => { r with filesUploaded := r.filesUploaded + 1 }
      | "download" => { r with filesDownloaded := r.filesDownloaded + 1 }
      | "delete_local" => { r with filesDeleted := r.filesDeleted + 1 }
      | "delete_remote" => { r with filesDeleted := r.filesDeleted + 1 }
      | "skip" => { r with filesSkipped := r.filesSkipped + 1 }
      | _ => r

/-- Go `Syncer.Execute`, real branch (sync.go) on the run the dry-run claim
compares against: every Transport call succeeds and no external cancellation
arrives, so the `ctx.Done()` poll never fires and `Errors` stays empty.
`localSize` stands for `os.Stat(localPath).Size()` and `remoteSize` for
`client.Stat(remotePath).Size` (they only feed the byte tally).  The second
component logs every Transport / local-file-system mutation in order. -/
def runActions (localSize remoteSize : String → Int) :
    List SyncAction → SyncResult × List EffectCall
  | [] => (SyncResult.empty, [])
  | a :: rest =>
      let (r, calls) := runActions localSize remoteSize rest
      match a.type with
      | "upload" =>
          ({ r with filesUploaded := r.filesUploaded + 1,
                    bytesTransferred := r.bytesTransferred + localSize a.localPath },
           .upload a.localPath a.remotePath :: calls)
      | "download" =>
          ({ r with filesDownloaded := r.filesDownloaded + 1,
                    bytesTransferred := r.bytesTransferred + remoteSize a.remotePath },
           .download a.remotePath a.localPath :: calls)
      | "delete_local" =>
          ({ r with filesDeleted := r.filesDeleted + 1 }, .removeLocal a.localPath :: calls)
      | "delete_remote" =>
          ({ r with filesDeleted := r.filesDeleted + 1 }, .removeRemote a.remotePath :: calls)
      | "skip" =>
          ({ r with filesSkipped := r.filesSkipped + 1 }, calls)
      | _ => (r, calls)

/-- Go `Syncer.Execute` (sync.go) restricted to a fixed, already analyzed
action plan: dry-run tallies, the real branch performs the plan (here: on the
all-success, never-cancelled run). -/
def executeActions (dryRun : Bool) (localSize remoteSize : String → Int)
    (actions : List SyncAction) : SyncResult × List EffectCall :=
  if dryRun then (tallyDryRun actions, [])
  else runActions localSize remoteSize actions

/-! ## ResumeManager (resume.go) -/

/-- Go `ResumeInfo` (resume.go); times in nanoseconds. -/
structure ResumeInfo where
  id : String
  direction : Nat
  localPath : String
  remotePath : String
  totalBytes : Int
  transferredBytes : Int
  startTime : Int
  lastUpdate : Int
  checksum : String
deriving DecidableEq, Repr

/-- Go `ResumeManager.GetIncomplete` (resume.go): keep exactly the entries
with `TransferredBytes > 0 && TransferredBytes < TotalBytes`.  The manager's
map is modelled by the list of its entries. -/
def getIncomplete (transfers : List ResumeInfo) : List ResumeInfo :=
  transfers.filter (fun info =>
    info.transferredBytes > 0 && info.transferredBytes < info.totalBytes)

/-! ## RateLimiter (bandwidth.go)

The limiter's mutable fields are `bytesPerSecond` and `tokens`; `lastRefill`
only feeds the elapsed-time computation, so a refill event is modelled by the
(nonnegative) token amount `int64(elapsed.Seconds() * float64(bytesPerSecond))`
it contributes. -/

/-- Go `RateLimiter` state (bandwidth.go). -/
structure RateLimiter where
  bytesPerSecond : Int
  tokens : Int
deriving DecidableEq, Repr

/-- Go `NewRateLimiter` (bandwidth.go): the bucket starts full. -/
def newRateLimiter (bytesPerSecond : Int) : RateLimiter :=
  ⟨bytesPerSecond, bytesPerSecond⟩

/-- Go `RateLimiter.SetRate` (bandwidth.go): sets the rate and resets the
token balance to the new rate. -/
def RateLimiter.setRate (_r : RateLimiter) (bytesPerSecond : Int) : RateLimiter :=
  ⟨bytesPerSecond, bytesPerSecond⟩

/-- Go `RateLimiter.GetRate` (bandwidth.go). -/
def RateLimiter.getRate (r : RateLimiter) : Int := r.bytesPerSecond

/-- One refill of `Wait`'s loop body (bandwidth.go): add the elapsed-time
contribution, then clamp the balance to the capacity `rate`. -/
def refillTokens (rate tokens add : Int) : Int :=
  let t := tokens + add
  if t > rate then rate else t

/-- The guard-checking skeleton of Go `RateLimiter.Wait` for a positive rate
(bandwidth.go): the loop refills, then exits when `tokens ≥ n`, otherwise
sleeps and refills again.  `adds` lists the successive elapsed-time refill
contributions (the initial one, then one per sleep); the result is `true`
exactly when one of the modelled guard checks lets `Wait` return. -/
def waitReturns (rate n : Int) (tokens : Int) : List Int → Bool
  | [] => false
  | add :: rest =>
      let t := refillTokens rate tokens add
      if t ≥ n then true else waitReturns rate n t rest

/-- Go `RateLimiter.Wait` entry (bandwidth.go), first guard check: with
`bytesPerSecond ≤ 0` it returns at once; otherwise it refills once and
returns without sleeping iff the refilled balance already covers `n`. -/
def waitNoSleep (r : RateLimiter) (n add : Int) : Bool :=
  if r.bytesPerSecond ≤ 0 then true
  else refillTokens r.bytesPerSecond r.tokens add ≥ n

/-! ## TransferManager (transfer.go) -/

/-- Go `TransferDirection`. -/
inductive TransferDirection where
  | upload
  | download
deriving DecidableEq, Repr

/-- Go `TransferStatus`. -/
inductive TransferStatus where
  | pending
  | inProgress
  | completed
  | failed
  | cancelled
  | paused
deriving DecidableEq, Repr

/-- Go `TransferItem` (transfer.go).  `id` is the numeric part of the
`"transfer-%d"` identifier.  `cancelRequested` models the item's cancellation
context having been cancelled (`item.cancel()` called / `ctx.Err() ==
Canceled`), and `running` models an `executeTransfer` goroutine having been
launched for the item and not yet returned.  The byte counters, throughput
and timestamps are progress-reporting fields irrelevant to the claims and are
omitted. -/
structure TransferItem where
  id : Nat
  direction : TransferDirection
  localPath : String
  remotePath : String
  status : TransferStatus
  priority : Int
  cancelRequested : Bool
  running : Bool
deriving DecidableEq, Repr

/-- Go `TransferManager`'s shared mutable state (transfer.go). -/
structure TMState where
  queue : List TransferItem
  history : List TransferItem
  maxParallel : Nat
  active : Nat
  idCounter : Nat
deriving DecidableEq, Repr

/-- Go `NewTransferManager` (transfer.go). -/
def initTM (maxParallel : Nat) : TMState :=
  ⟨[], [], maxParallel, 0, 0⟩

/-- The priority-ordered insertion of Go `addTransfer` / `Retry`
(transfer.go): place the new item immediately before the first queued item
whose priority is strictly lower, or at the end when there is none. -/
def insertByPriority (item : TransferItem) : List TransferItem → List TransferItem
  | [] => [item]
  | existing :: rest =>
      if item.priority > existing.priority then item :: existing :: rest
      else existing :: insertByPriority item rest

/-- Go `TransferManager.addTransfer` (transfer.go): fresh ID, Pending item,
priority-ordered insert.  (The `go m.processQueue()` it fires is the separate
`schedule` step.) -/
def addTransfer (s : TMState) (direction : TransferDirection)
    (localPath remotePath : String) (priority : Int) : TMState :=
  let item : TransferItem :=
    ⟨s.idCounter + 1, direction, localPath, remotePath, .pending, priority, false, false⟩
  { s with idCounter := s.idCounter + 1, queue := insertByPriority item s.queue }

/-- One slot grant of Go `processQueue`'s loop (transfer.go): mark the first
Pending item InProgress (and launched).  `none` when no Pending item
remains. -/
def markFirstPending : List TransferItem → Option (List TransferItem)
  | [] => none
  | q :: rest =>
      if q.status = .pending then
        some ({ q with status := .inProgress, running := true } :: rest)
      else
        (markFirstPending rest).map (q :: ·)

/-- Go `TransferManager.processQueue` (transfer.go): while `active <
maxParallel` and a Pending item exists, grant it a slot.  Each grant turns
one Pending item InProgress, so `queue.length` bounds the iterations and
serves as fuel. -/
def processQueueAux : Nat → TMState → TMState
  | 0, s => s
  | fuel + 1, s =>
      if s.active < s.maxParallel then
        match markFirstPending s.queue with
        | some q' => processQueueAux fuel { s with queue := q', active := s.active + 1 }
        | none => s
      else s

def processQueue (s : TMState) : TMState :=
  processQueueAux s.queue.length s

/-- Outcome classification at the end of Go `executeTransfer` (transfer.go):
an error from a cancelled context gives Cancelled, any other error Failed,
no error Completed.  `err` says whether the Transport call returned an
error. -/
def classifyOutcome (cancelRequested err : Bool) : TransferStatus :=
  if err then (if cancelRequested then .cancelled else .failed) else .completed

/-- The finished item as Go `executeTransfer`'s epilogue leaves it. -/
def finalizeItem (t : TransferItem) (err : Bool) : TransferItem :=
  { t with status := classifyOutcome t.cancelRequested err, running := false }

/-- Go `TransferManager.removeFromQueue` (transfer.go): drop the first queue
item with the given ID. -/
def removeFromQueue : List TransferItem → Nat → List TransferItem
  | [], _ => []
  | t :: rest, id => if t.id = id then rest else t :: removeFromQueue rest id

/-- The history append of Go `executeTransfer` (transfer.go): append, then
drop the front (oldest) entry if the length exceeds 100. -/
def appendHistory (history : List TransferItem) (item : TransferItem) :
    List TransferItem :=
  let h := history ++ [item]
  if h.length > 100 then h.tail else h

/-- Epilogue of Go `executeTransfer` (transfer.go) for the running item with
the given ID: set the terminal status, move the item from the queue to the
(bounded) history, decrement `active`.  (Logging and the completion callback
are external effects outside this state.) -/
def completeTransfer (s : TMState) (id : Nat) (err : Bool) : TMState :=
  match s.queue.find? (fun t => t.id == id) with
  | none => s
  | some t =>
      { s with
          queue := removeFromQueue s.queue id,
          history := appendHistory s.history (finalizeItem t err),
          active := s.active - 1 }

/-- Go `TransferManager.Cancel`'s queue scan (transfer.go): at the first item
with the given ID, signal its context if InProgress, otherwise set its status
to Cancelled; report `true` on a hit.  History is never consulted. -/
def cancelInQueue : List TransferItem → Nat → List TransferItem × Bool
  | [], _ => ([], false)
  | t :: rest, id =>
      if t.id = id then
        (if t.status = .inProgress then
          ({ t with cancelRequested := true } :: rest, true)
        else
          ({ t with status := .cancelled } :: rest, true))
      else
        let r := cancelInQueue rest id
        (t :: r.1, r.2)

/-- Go `TransferManager.Cancel` (transfer.go) acting on the manager state;
the Bool is `true` iff no `transfer not found` error is returned. -/
def applyCancel (s : TMState) (id : Nat) : TMState × Bool :=
  ({ s with queue := (cancelInQueue s.queue id).1 }, (cancelInQueue s.queue id).2)

/-- Go `TransferManager.CancelAll` (transfer.go): cancel the context of every
Pending or InProgress queue item and mark it Cancelled. -/
def applyCancelAll (s : TMState) : TMState :=
  { s with queue := s.queue.map (fun t =>
      if t.status = .pending ∨ t.status = .inProgress then
        { t with cancelRequested := true, status := .cancelled }
      else t) }

/-- Go `TransferManager.Pause`'s queue scan (transfer.go): the first queue
item with the given ID **and** status Pending becomes Paused. -/
def pauseInQueue : List TransferItem → Nat → List TransferItem
  | [], _ => []
  | t :: rest, id =>
      if t.id = id ∧ t.status = .pending then { t with status := .paused } :: rest
      else t :: pauseInQueue rest id

def applyPause (s : TMState) (id : Nat) : TMState :=
  { s with queue := pauseInQueue s.queue id }

/-- Go `TransferManager.Resume`'s queue scan (transfer.go): the first queue
item with the given ID **and** status Paused becomes Pending again. -/
def resumeInQueue : List TransferItem → Nat → List TransferItem
  | [], _ => []
  | t :: rest, id =>
      if t.id = id ∧ t.status = .paused then { t with status := .pending } :: rest
      else t :: resumeInQueue rest id

def applyResume (s : TMState) (id : Nat) : TMState :=
  { s with queue := resumeInQueue s.queue id }

/-- History removal for Go `Retry` (transfer.go): drop the first history
entry with the given ID and status Failed. -/
def removeFailedFromHistory : List TransferItem → Nat → List TransferItem
  | [], _ => []
  | t :: rest, id =>
      if t.id = id ∧ t.status = .failed then rest
      else t :: removeFailedFromHistory rest id

/-- Go `TransferManager.Retry` (transfer.go): when the history holds a Failed
item with this ID, remove it and enqueue a brand-new Pending clone (fresh ID,
same direction/paths/priority) in priority order; otherwise leave the state
unchanged (`failed transfer not found`). -/
def applyRetry (s : TMState) (id : Nat) : TMState :=
  match s.history.find? (fun t => t.id == id && t.status == .failed) with
  | none => s
  | some t =>
      let newItem : TransferItem :=
        ⟨s.idCounter + 1, t.direction, t.localPath, t.remotePath, .pending,
          t.priority, false, false⟩
      { s with
          history := removeFailedFromHistory s.history id,
          idCounter := s.idCounter + 1,
          queue := insertByPriority newItem s.queue }

/-- Go `TransferManager.SetMaxParallel` (transfer.go). -/
def applySetMaxParallel (s : TMState) (n : Nat) : TMState :=
  { s with maxParallel := n }

/-- One atomic step of the TransferManager: each constructor is one
lock-protected critical section of transfer.go.  `schedule` stands for any of
the `go m.processQueue()` triggers and may fire at any time; `complete`
requires that an execution goroutine for the item was actually launched
(`running`). -/
inductive TMStep : TMState → TMState → Prop where
  | add (s : TMState) (direction : TransferDirection) (localPath remotePath : String)
      (priority : Int) :
      TMStep s (addTransfer s direction localPath remotePath priority)
  | schedule (s : TMState) : TMStep s (processQueue s)
  | complete (s : TMState) (id : Nat) (err : Bool)
      (h : ∃ t ∈ s.queue, t.id = id ∧ t.running = true) :
      TMStep s (completeTransfer s id err)
  | cancel (s : TMState) (id : Nat) : TMStep s (applyCancel s id).1
  | cancelAll (s : TMState) : TMStep s (applyCancelAll s)
  | pause (s : TMState) (id : Nat) : TMStep s (applyPause s id)
  | resume (s : TMState) (id : Nat) : TMStep s (applyResume s id)
  | retry (s : TMState) (id : Nat) : TMStep s (applyRetry s id)
  | setMaxParallel (s : TMState) (n : Nat) : TMStep s (applySetMaxParallel s n)

/-- States reachable from a freshly constructed manager. -/
inductive TMReachable : TMState → Prop where
  | init (maxParallel : Nat) : TMReachable (initTM maxParallel)
  | step {s s' : TMState} : TMReachable s → TMStep s s' → TMReachable s'

/-- The step relation restricted so that `SetMaxParallel` never lowers the
ceiling below the current active count. -/
inductive TMStepSafe : TMState → TMState → Prop where
  | add (s : TMState) (direction : TransferDirection) (localPath remotePath : String)
      (priority : Int) :
      TMStepSafe s (addTransfer s direction localPath remotePath priority)
  | schedule (s : TMState) : TMStepSafe s (processQueue s)
  | complete (s : TMState) (id : Nat) (err : Bool)
      (h : ∃ t ∈ s.queue, t.id = id ∧ t.running = true) :
      TMStepSafe s (completeTransfer s id err)
  | cancel (s : TMState) (id : Nat) : TMStepSafe s (applyCancel s id).1
  | cancelAll (s : TMState) : TMStepSafe s (applyCancelAll s)
  | pause (s : TMState) (id : Nat) : TMStepSafe s (applyPause s id)
  | resume (s : TMState) (id : Nat) : TMStepSafe s (applyResume s id)
  | retry (s : TMState) (id : Nat) : TMStepSafe s (applyRetry s id)
  | setMaxParallel (s : TMState) (n : Nat) (h : s.active ≤ n) :
      TMStepSafe s (applySetMaxParallel s n)

/-- States reachable when `SetMaxParallel` is never used to drop the ceiling
below the active count. -/
inductive TMReachableSafe : TMState → Prop where
  | init (maxParallel : Nat) : TMReachableSafe (initTM maxParallel)
  | step {s s' : TMState} : TMReachableSafe s → TMStepSafe s s' → TMReachableSafe s'

/-! ## Theorems -/

/-- C5: under the `SizeAndTime` comparison method, `needsSync` returns
`false` iff the sizes are exactly equal and the absolute modification-time
difference is at most 2 seconds, and `true` otherwise (whatever the other
option fields are). -/
theorem c5_needsSync_sizeAndTime (opts : SyncOptions) (localInfo remoteInfo : FileMeta) :
    needsSync { opts with compareMethod := .compareBySizeAndTime } localInfo remoteInfo = false
      ↔ localInfo.size = remoteInfo.size
        ∧ |localInfo.modTime - remoteInfo.modTime| ≤ 2 * nsPerSecond := by
  simp only [needsSync, nsPerSecond, bne_iff_ne, ne_eq, abs_le]
  by_cases hs : localInfo.size = remoteInfo.size
  · simp only [hs, not_true_eq_false, if_false, decide_eq_false_iff_not, not_lt, true_and]
    constructor
    · intro h
      split_ifs at h with hd <;> omega
    · intro h
      split_ifs <;> omega
  · simp [hs]

/-- C8: `GetIncomplete` returns exactly the held entries whose transferred
byte count satisfies `0 < transferred < total`. -/
theorem c8_getIncomplete_iff (transfers : List ResumeInfo) (info : ResumeInfo) :
    info ∈ getIncomplete transfers
      ↔ info ∈ transfers
        ∧ 0 < info.transferredBytes ∧ info.transferredBytes < info.totalBytes := by
  simp [getIncomplete, List.mem_filter, and_assoc]

/-- C3, behavior of the code at the failing input: for a limiter configured
at 1000 bytes/s, every refill of `Wait`'s loop clamps the token balance to at
most 1000, so the guard `tokens < 5000` holds at every check and
`Wait(5000)` never returns — however many refills `adds` the loop performs
and whatever balance it starts from. -/
theorem c3_wait_5000_at_rate_1000_never_returns (tokens : Int) (adds : List Int) :
    waitReturns 1000 5000 tokens adds = false := by
  induction adds generalizing tokens with
  | nil => rfl
  | cons add rest ih =>
      have hle : refillTokens 1000 tokens add ≤ 1000 := by
        simp only [refillTokens]
        split <;> omega
      simp only [waitReturns]
      rw [if_neg (by omega)]
      exact ih _

/-- C10: `SetRate(r)` overwrites both the configured rate and the token
balance with `r`; immediately afterwards, for `r > 0`, a `Wait(n)` with
`n ≤ r` passes its guard without sleeping (for any nonnegative elapsed-time
refill), and `GetRate` returns `r`. -/
theorem c10_setRate (r : RateLimiter) (rate n add : Int)
    (hrate : 0 < rate) (hn : n ≤ rate) (hadd : 0 ≤ add) :
    (r.setRate rate).bytesPerSecond = rate
      ∧ (r.setRate rate).tokens = rate
      ∧ (r.setRate rate).getRate = rate
      ∧ waitNoSleep (r.setRate rate) n add = true := by
  refine ⟨rfl, rfl, rfl, ?_⟩
  simp only [waitNoSleep, RateLimiter.setRate, refillTokens]
  rw [if_neg (by omega)]
  split <;> simp <;> omega

/-- Witness for C10 at a depleted limiter: rate 500, balance −25, then
`SetRate 1000` followed by `Wait(1000)` with a zero refill. -/
theorem c10_setRate_witness :
    (RateLimiter.setRate ⟨500, -25⟩ 1000).bytesPerSecond = 1000
      ∧ (RateLimiter.setRate ⟨500, -25⟩ 1000).tokens = 1000
      ∧ (RateLimiter.setRate ⟨500, -25⟩ 1000).getRate = 1000
      ∧ waitNoSleep (RateLimiter.setRate ⟨500, -25⟩ 1000) 1000 0 = true :=
  c10_setRate ⟨500, -25⟩ 1000 1000 0 (by decide) (by decide) (by decide)

/-- The four per-action counters of the dry-run tally agree with those of the
all-success real run, action list by action list. -/
theorem tally_eq_runActions (localSize remoteSize : String → Int)
    (actions : List SyncAction) :
    (tallyDryRun actions).filesUploaded
        = (runActions localSize remoteSize actions).1.filesUploaded
      ∧ (tallyDryRun actions).filesDownloaded
        = (runActions localSize remoteSize actions).1.filesDownloaded
      ∧ (tallyDryRun actions).filesDeleted
        = (runActions localSize remoteSize actions).1.filesDeleted
      ∧ (tallyDryRun actions).filesSkipped
        = (runActions localSize remoteSize actions).1.filesSkipped := by
  induction actions with
  | nil => exact ⟨rfl, rfl, rfl, rfl⟩
  | cons a rest ih =>
      obtain ⟨h1, h2, h3, h4⟩ := ih
      simp only [tallyDryRun, runActions]
      split <;> simp_all

/-- C7: for any fixed action plan, `Execute` with `dryRun=true` reports the
same uploaded/downloaded/deleted/skipped counts as `Execute` with
`dryRun=false` does when every action succeeds, while performing no Transport
call and no local file-system mutation (its effect log is empty). -/
theorem c7_dry_run_equivalence (localSize remoteSize : String → Int)
    (actions : List SyncAction) :
    (executeActions true localSize remoteSize actions).1.filesUploaded
        = (executeActions false localSize remoteSize actions).1.filesUploaded
      ∧ (executeActions true localSize remoteSize actions).1.filesDownloaded
        = (executeActions false localSize remoteSize actions).1.filesDownloaded
      ∧ (executeActions true localSize remoteSize actions).1.filesDeleted
        = (executeActions false localSize remoteSize actions).1.filesDeleted
      ∧ (executeActions true localSize remoteSize actions).1.filesSkipped
        = (executeActions false localSize remoteSize actions).1.filesSkipped
      ∧ (executeActions true localSize remoteSize actions).2 = [] := by
  obtain ⟨h1, h2, h3, h4⟩ := tally_eq_runActions localSize remoteSize actions
  exact ⟨h1, h2, h3, h4, rfl⟩

/-- Association-list lookup at the key just consed on. -/
theorem lookup_cons_self (k : String) (v : FileMeta) (l : List (String × FileMeta)) :
    ((k, v) :: l).lookup k = some v := by
  simp [List.lookup]

/-- Association-list lookup skips a cons with a different key. -/
theorem lookup_cons_ne {k k' : String} (v : FileMeta) (l : List (String × FileMeta))
    (h : k' ≠ k) : ((k, v) :: l).lookup k' = l.lookup k' := by
  have hb : (k' == k) = false := beq_eq_false_iff_ne.mpr h
  simp [List.lookup, hb]

/-- Every action produced by the upload analysis is an `upload` or a `skip`;
in particular it never emits a delete. -/
theorem analyzeUpload_type_upload_or_skip (opts : SyncOptions) (localDir remoteDir : String)
    (localMap remoteMap : List (String × FileMeta)) (a : SyncAction)
    (ha : a ∈ analyzeUpload opts localDir remoteDir localMap remoteMap) :
    a.type = "upload" ∨ a.type = "skip" := by
  unfold analyzeUpload at ha
  induction localMap with
  | nil => simp [analyzeUploadLoop] at ha
  | cons entry rest ih =>
      obtain ⟨relPath, localInfo⟩ := entry
      cases hlk : remoteMap.lookup relPath with
      | none =>
          simp only [analyzeUploadLoop, hlk] at ha
          rcases List.mem_cons.mp ha with rfl | ha
          · exact Or.inl rfl
          · exact ih ha
      | some remoteInfo =>
          simp only [analyzeUploadLoop, hlk] at ha
          split at ha
          · rcases List.mem_cons.mp ha with rfl | ha
            · exact Or.inl rfl
            · exact ih ha
          · rcases List.mem_cons.mp ha with rfl | ha
            · exact Or.inr rfl
            · exact ih ha

/-- Every `delete_remote` action produced by the mirror analysis targets a
relative path that is present remotely and absent locally (so a local-only
file is never the target of a delete). -/
theorem analyzeMirror_delete_targets (opts : SyncOptions) (localDir remoteDir : String)
    (localMap remoteMap : List (String × FileMeta)) (a : SyncAction)
    (ha : a ∈ analyzeMirror opts localDir remoteDir localMap remoteMap)
    (hdel : a.type = "delete_remote") :
    ∃ rel, (remoteMap.lookup rel).isSome
      ∧ localMap.lookup rel = none
      ∧ a.remotePath = joinPath remoteDir rel
      ∧ a.localPath = "" := by
  unfold analyzeMirror at ha
  rw [List.mem_append] at ha
  rcases ha with ha | ha
  · rcases analyzeUpload_type_upload_or_skip opts localDir remoteDir localMap remoteMap a ha with
      h | h <;> simp [h] at hdel
  · split at ha
    · clear hdel
      induction remoteMap with
      | nil => simp [mirrorDeletesLoop] at ha
      | cons entry rest ih =>
          obtain ⟨relPath, meta⟩ := entry
          simp only [mirrorDeletesLoop] at ha
          by_cases hmem : (localMap.lookup relPath).isSome
          · rw [if_pos hmem] at ha
            obtain ⟨rel, h1, h2, h3, h4⟩ := ih ha
            refine ⟨rel, ?_, h2, h3, h4⟩
            by_cases he : rel = relPath
            · subst he; rw [lookup_cons_self]; rfl
            · rwa [lookup_cons_ne meta rest he]
          · rw [if_neg hmem] at ha
            rcases List.mem_cons.mp ha with rfl | ha
            · refine ⟨relPath, ?_, ?_, rfl, rfl⟩
              · rw [lookup_cons_self]; rfl
              · exact Option.not_isSome_iff_eq_none.mp hmem
            · obtain ⟨rel, h1, h2, h3, h4⟩ := ih ha
              refine ⟨rel, ?_, h2, h3, h4⟩
              by_cases he : rel = relPath
              · subst he; rw [lookup_cons_self]; rfl
              · rwa [lookup_cons_ne meta rest he]
    · simp at ha

/-- C6, counterexample to the claim as stated: with local tree `{a.txt}`,
remote tree `{a.txt, b.txt}` and `a.txt` unchanged on both sides, Mirror
analysis with `deleteExtra=true` does emit an action for `a.txt` — a `skip`
action — alongside the `delete_remote` for `b.txt`, so "no action for a.txt"
fails. -/
theorem c6_counterexample :
    analyzeMirror ⟨.modeMirror, .compareBySizeAndTime, true, false⟩ "local" "remote"
        [("a.txt", ⟨100, 0⟩)] [("a.txt", ⟨100, 0⟩), ("b.txt", ⟨5, 0⟩)]
      = [⟨"skip", "local/a.txt", "remote/a.txt", "files are identical or remote is newer"⟩,
         ⟨"delete_remote", "", "remote/b.txt", "file does not exist locally"⟩] := by
  decide

/-- C6 as amended: on those trees, Mirror with `deleteExtra=true` produces
the `delete_remote` action for `b.txt` and, for `a.txt`, only a `skip` action
(no upload/download/delete); with `deleteExtra=false` the mirror analysis
emits no delete action at all (on any input); and a local-only file is never
the target of a delete action (every `delete_remote` targets a remote path
absent locally). -/
theorem c6_mirror_delete_policy :
    (⟨"delete_remote", "", "remote/b.txt", "file does not exist locally"⟩ ∈
        analyzeMirror ⟨.modeMirror, .compareBySizeAndTime, true, false⟩ "local" "remote"
          [("a.txt", ⟨100, 0⟩)] [("a.txt", ⟨100, 0⟩), ("b.txt", ⟨5, 0⟩)]
      ∧ ∀ a ∈ analyzeMirror ⟨.modeMirror, .compareBySizeAndTime, true, false⟩ "local" "remote"
          [("a.txt", ⟨100, 0⟩)] [("a.txt", ⟨100, 0⟩), ("b.txt", ⟨5, 0⟩)],
          (a.localPath = "local/a.txt" ∨ a.remotePath = "remote/a.txt") → a.type = "skip")
    ∧ (∀ (opts : SyncOptions) (localDir remoteDir : String)
        (localMap remoteMap : List (String × FileMeta)),
        opts.deleteExtra = false →
        ∀ a ∈ analyzeMirror opts localDir remoteDir localMap remoteMap,
          a.type = "upload" ∨ a.type = "skip")
    ∧ (∀ (opts : SyncOptions) (localDir remoteDir : String)
        (localMap remoteMap : List (String × FileMeta)) (a : SyncAction),
        a ∈ analyzeMirror opts localDir remoteDir localMap remoteMap →
        a.type = "delete_remote" →
        ∃ rel, (remoteMap.lookup rel).isSome
          ∧ localMap.lookup rel = none
          ∧ a.remotePath = joinPath remoteDir rel) := by
  refine ⟨⟨by decide, by decide⟩, ?_, ?_⟩
  · intro opts localDir remoteDir localMap remoteMap hde a ha
    unfold analyzeMirror at ha
    rw [hde] at ha
    simp only [Bool.false_eq_true, if_false, List.append_nil] at ha
    exact analyzeUpload_type_upload_or_skip opts localDir remoteDir localMap remoteMap a ha
  · intro opts localDir remoteDir localMap remoteMap a ha hdel
    obtain ⟨rel, h1, h2, h3, _⟩ :=
      analyzeMirror_delete_targets opts localDir remoteDir localMap remoteMap a ha hdel
    exact ⟨rel, h1, h2, h3⟩

/-- Witness for C6's amended theorem: its general clauses applied at the
concrete trees of the scenario. -/
theorem c6_mirror_delete_policy_witness :
    (∀ a ∈ analyzeMirror ⟨.modeMirror, .compareBySizeAndTime, false, false⟩ "local" "remote"
        [("a.txt", ⟨100, 0⟩)] [("a.txt", ⟨100, 0⟩), ("b.txt", ⟨5, 0⟩)],
        a.type = "upload" ∨ a.type = "skip")
    ∧ ∃ rel, (([("a.txt", (⟨100, 0⟩ : FileMeta)), ("b.txt", ⟨5, 0⟩)]).lookup rel).isSome
        ∧ ([("a.txt", (⟨100, 0⟩ : FileMeta))]).lookup rel = none
        ∧ "remote/b.txt" = joinPath "remote" rel :=
  ⟨c6_mirror_delete_policy.2.1 ⟨.modeMirror, .compareBySizeAndTime, false, false⟩
      "local" "remote" [("a.txt", ⟨100, 0⟩)] [("a.txt", ⟨100, 0⟩), ("b.txt", ⟨5, 0⟩)] rfl,
    c6_mirror_delete_policy.2.2 ⟨.modeMirror, .compareBySizeAndTime, true, false⟩
      "local" "remote" [("a.txt", ⟨100, 0⟩)] [("a.txt", ⟨100, 0⟩), ("b.txt", ⟨5, 0⟩)]
      ⟨"delete_remote", "", "remote/b.txt", "file does not exist locally"⟩
      (by decide) rfl⟩

/-- `Cancel`'s scan misses (returns the not-found error) exactly when no
queue item carries the requested ID. -/
theorem cancelInQueue_snd_false_iff (q : List TransferItem) (id : Nat) :
    (cancelInQueue q id).2 = false ↔ ∀ t ∈ q, t.id ≠ id := by
  induction q with
  | nil => simp [cancelInQueue]
  | cons t rest ih =>
      by_cases h : t.id = id
      · simp only [cancelInQueue, if_pos h]
        have h2 : (if t.status = TransferStatus.inProgress then
            ({ t with cancelRequested := true } :: rest, true)
          else ({ t with status := TransferStatus.cancelled } :: rest, true)).2 = true := by
          split <;> rfl
        rw [h2]
        simp [List.forall_mem_cons, h]
      · simp only [cancelInQueue, if_neg h]
        simpa [List.forall_mem_cons, h] using ih

/-- `Cancel`'s scan at the first matching item, when that item is not
InProgress: it is marked Cancelled in place and success is reported. -/
theorem cancelInQueue_first_match (pre : List TransferItem) (t : TransferItem)
    (post : List TransferItem) (id : Nat) (hpre : ∀ x ∈ pre, x.id ≠ id)
    (ht : t.id = id) (hst : t.status ≠ TransferStatus.inProgress) :
    cancelInQueue (pre ++ t :: post) id =
      (pre ++ { t with status := TransferStatus.cancelled } :: post, true) := by
  induction pre with
  | nil =>
      simp only [List.nil_append, cancelInQueue, if_pos ht, if_neg hst]
  | cons x rest ih =>
      have hx : x.id ≠ id := hpre x (List.mem_cons_self x rest)
      have hrest : ∀ y ∈ rest, y.id ≠ id := fun y hy => hpre y (List.mem_cons_of_mem x hy)
      simp only [List.cons_append, cancelInQueue, if_neg hx, List.append_eq, ih hrest]

/-- C9: `Cancel(id)` returns the not-found error iff no item in the live
queue has the ID (membership of the ID in history is irrelevant — the scan
never consults history); and when the first queue item with the ID has any
status other than InProgress (Pending, Paused, or already Cancelled), the
call succeeds and that item's status becomes Cancelled, in place. -/
theorem c9_cancel_semantics (s : TMState) (id : Nat) :
    ((applyCancel s id).2 = false ↔ ∀ t ∈ s.queue, t.id ≠ id)
    ∧ ∀ pre t post, s.queue = pre ++ t :: post → (∀ x ∈ pre, x.id ≠ id) →
        t.id = id → t.status ≠ TransferStatus.inProgress →
        (applyCancel s id).2 = true
        ∧ (applyCancel s id).1.queue
            = pre ++ { t with status := TransferStatus.cancelled } :: post := by
  constructor
  · simpa [applyCancel] using cancelInQueue_snd_false_iff s.queue id
  · intro pre t post hq hpre ht hst
    have h := cancelInQueue_first_match pre t post id hpre ht hst
    rw [applyCancel, hq, h]
    exact ⟨rfl, rfl⟩

/-- Witness for C9: cancelling a Paused item (id 1) in a one-item queue
succeeds and marks it Cancelled, even though id 1 is absent from history. -/
theorem c9_cancel_semantics_witness :
    (applyCancel ⟨[⟨1, .upload, "a", "b", .paused, 0, false, false⟩], [], 2, 0, 1⟩ 1).2 = true
    ∧ (applyCancel ⟨[⟨1, .upload, "a", "b", .paused, 0, false, false⟩], [], 2, 0, 1⟩ 1).1.queue
        = [⟨1, .upload, "a", "b", .cancelled, 0, false, false⟩] :=
  (c9_cancel_semantics ⟨[⟨1, .upload, "a", "b", .paused, 0, false, false⟩], [], 2, 0, 1⟩ 1).2
    [] ⟨1, .upload, "a", "b", .paused, 0, false, false⟩ [] rfl
    (fun x hx => absurd hx (List.not_mem_nil x)) rfl (by decide)

/-- A sequence of `AddUpload`/`AddDownload` calls applied in order. -/
def enqueueAll (s : TMState) :
    List (TransferDirection × String × String × Int) → TMState
  | [] => s
  | (direction, localPath, remotePath, priority) :: rest =>
      enqueueAll (addTransfer s direction localPath remotePath priority) rest

/-- The queue order the scheduler maintains: any earlier item either has
strictly higher priority or the same priority and an older (smaller) ID;
IDs record arrival order, so equal priorities sit in arrival order. -/
def queueBefore (a b : TransferItem) : Prop :=
  b.priority < a.priority ∨ (a.priority = b.priority ∧ a.id < b.id)

theorem mem_insertByPriority {x item : TransferItem} {q : List TransferItem} :
    x ∈ insertByPriority item q ↔ x = item ∨ x ∈ q := by
  induction q with
  | nil => simp [insertByPriority]
  | cons e rest ih =>
      simp only [insertByPriority]
      split
      · simp [List.mem_cons]
      · simp only [List.mem_cons, ih]
        tauto

/-- Priority-ordered insertion of a fresh item (ID larger than every queued
ID) preserves the queue order. -/
theorem pairwise_insertByPriority (item : TransferItem) (q : List TransferItem)
    (hq : q.Pairwise queueBefore) (hid : ∀ x ∈ q, x.id < item.id) :
    (insertByPriority item q).Pairwise queueBefore := by
  induction q with
  | nil => simp [insertByPriority]
  | cons e rest ih =>
      rw [List.pairwise_cons] at hq
      obtain ⟨he, hrest⟩ := hq
      simp only [insertByPriority]
      split
      · case isTrue hgt =>
          rw [List.pairwise_cons]
          refine ⟨?_, List.pairwise_cons.mpr ⟨he, hrest⟩⟩
          intro y hy
          rcases List.mem_cons.mp hy with rfl | hy
          · exact Or.inl hgt
          · rcases he y hy with h | ⟨h, _⟩
            · exact Or.inl (h.trans hgt)
            · exact Or.inl (h ▸ hgt)
      · case isFalse hle =>
          rw [List.pairwise_cons]
          constructor
          · intro y hy
            rcases mem_insertByPriority.mp hy with rfl | hy
            · rcases lt_or_eq_of_le (not_lt.mp hle) with h | h
              · exact Or.inl h
              · exact Or.inr ⟨h.symm, hid e (List.mem_cons_self e rest)⟩
            · exact he y hy
          · exact ih hrest (fun x hx => hid x (List.mem_cons_of_mem e hx))

/-- Enqueueing preserves the queue order together with the ID bound
(every queued ID is at most the counter). -/
theorem enqueueAll_ordered (reqs : List (TransferDirection × String × String × Int))
    (s : TMState) (hq : s.queue.Pairwise queueBefore)
    (hid : ∀ x ∈ s.queue, x.id ≤ s.idCounter) :
    (enqueueAll s reqs).queue.Pairwise queueBefore
      ∧ ∀ x ∈ (enqueueAll s reqs).queue, x.id ≤ (enqueueAll s reqs).idCounter := by
  induction reqs generalizing s with
  | nil => exact ⟨hq, hid⟩
  | cons req rest ih =>
      obtain ⟨direction, localPath, remotePath, priority⟩ := req
      refine ih (addTransfer s direction localPath remotePath priority) ?_ ?_
      · exact pairwise_insertByPriority _ _ hq
          (fun x hx => Nat.lt_succ_of_le (hid x hx))
      · intro x hx
        rcases mem_insertByPriority.mp hx with rfl | hx
        · exact Nat.le_refl _
        · exact Nat.le_succ_of_le (hid x hx)

/-- C4: `addTransfer` places the new item immediately before the first queued
item of strictly lower priority (formally: after exactly the maximal prefix
of priorities ≥ its own) and at the end when there is none; consequently any
sequence of `AddUpload`/`AddDownload` calls on a fresh manager leaves the
queue with strictly-higher-priority items first and equal-priority items in
arrival order (older, i.e. smaller, IDs first). -/
theorem c4_priority_queue_order :
    (∀ (item : TransferItem) (q : List TransferItem),
      insertByPriority item q
        = q.takeWhile (fun e => decide (item.priority ≤ e.priority))
          ++ item :: q.dropWhile (fun e => decide (item.priority ≤ e.priority)))
    ∧ ∀ (reqs : List (TransferDirection × String × String × Int)) (n : Nat),
        (enqueueAll (initTM n) reqs).queue.Pairwise queueBefore := by
  constructor
  · intro item q
    induction q with
    | nil => simp [insertByPriority]
    | cons e rest ih =>
        simp only [insertByPriority]
        split
        · case isTrue hgt =>
            rw [List.takeWhile_cons, List.dropWhile_cons]
            have hfalse : decide (item.priority ≤ e.priority) = false := by
              simpa using not_le.mpr hgt
            rw [hfalse]
            simp
        · case isFalse hle =>
            rw [List.takeWhile_cons, List.dropWhile_cons]
            have htrue : decide (item.priority ≤ e.priority) = true := by
              simpa using not_lt.mp hle
            rw [htrue]
            simpa using ih
  · intro reqs n
    exact (enqueueAll_ordered reqs (initTM n) (by simp [initTM]) (by simp [initTM])).1

/-- A scheduling pass keeps `active ≤ maxParallel` whenever it held on
entry: the loop admits a new transfer only under the strict guard
`active < maxParallel`. -/
theorem processQueueAux_active_le (fuel : Nat) (s : TMState)
    (h : s.active ≤ s.maxParallel) :
    (processQueueAux fuel s).active ≤ (processQueueAux fuel s).maxParallel := by
  induction fuel generalizing s with
  | zero => exact h
  | succ fuel ih =>
      simp only [processQueueAux]
      split
      · case isTrue hlt =>
          cases hm : markFirstPending s.queue with
          | none => exact h
          | some q' => exact ih _ hlt
      · exact h

/-- Every safe step preserves `active ≤ maxParallel`. -/
theorem tmStepSafe_preserves_active_le {s s' : TMState} (hstep : TMStepSafe s s')
    (h : s.active ≤ s.maxParallel) : s'.active ≤ s'.maxParallel := by
  cases hstep with
  | add direction localPath remotePath priority => exact h
  | schedule => exact processQueueAux_active_le _ _ h
  | complete id err hex =>
      simp only [completeTransfer]
      cases hf : s.queue.find? (fun t => t.id == id) with
      | none => simp only [hf]; exact h
      | some t => simp only [hf]; exact Nat.le_trans (Nat.sub_le _ _) h
  | cancel id => exact h
  | cancelAll => exact h
  | pause id => exact h
  | resume id => exact h
  | retry id =>
      simp only [applyRetry]
      cases hf : s.history.find? (fun t => t.id == id && t.status == TransferStatus.failed) with
      | none => simp only [hf]; exact h
      | some t => simp only [hf]; exact h
  | setMaxParallel n hn => exact hn

/-- C1 amended: in every state reachable while `SetMaxParallel` is never
asked to drop the ceiling below the current active count, the active count is
at most `maxParallel` (so the scheduler itself never admits a transfer past
the ceiling; only an explicit shrink of the ceiling can leave excess
in-flight transfers, and they then finish naturally). -/
theorem c1_active_le_maxParallel (s : TMState) (h : TMReachableSafe s) :
    s.active ≤ s.maxParallel := by
  induction h with
  | init n => exact Nat.zero_le n
  | step hr hstep ih => exact tmStepSafe_preserves_active_le hstep ih

/-- Witness for C1's amended invariant: enqueue one item on a fresh manager
with ceiling 1 and run a scheduling pass. -/
theorem c1_active_le_maxParallel_witness :
    (processQueue (addTransfer (initTM 1) .upload "a" "b" 0)).active
      ≤ (processQueue (addTransfer (initTM 1) .upload "a" "b" 0)).maxParallel :=
  c1_active_le_maxParallel _
    (.step (.step (.init 1) (.add _ .upload "a" "b" 0)) (.schedule _))

/-- C1, counterexample to the claim as stated: with `SetMaxParallel` among
the allowed operations the invariant fails — start two transfers under
ceiling 2, then lower the ceiling to 1: the reached state has 2 transfers
in progress but `maxParallel = 1`. -/
theorem c1_counterexample :
    ∃ s : TMState, TMReachable s ∧ s.maxParallel < s.active := by
  refine ⟨applySetMaxParallel (processQueue (addTransfer
      (addTransfer (initTM 2) .upload "a" "b" 0) .upload "c" "d" 0)) 1, ?_, by decide⟩
  exact .step (.step (.step (.step (.init 2) (.add _ .upload "a" "b" 0))
    (.add _ .upload "c" "d" 0)) (.schedule _)) (.setMaxParallel _ 1)

/-- A scheduling pass never touches the history. -/
theorem processQueueAux_history_eq (fuel : Nat) (s : TMState) :
    (processQueueAux fuel s).history = s.history := by
  induction fuel generalizing s with
  | zero => rfl
  | succ fuel ih =>
      simp only [processQueueAux]
      split
      · cases hm : markFirstPending s.queue with
        | none => rfl
        | some q' => exact ih _
      · rfl

/-- The bounded append keeps the history at no more than 100 items. -/
theorem appendHistory_length_le (history : List TransferItem) (item : TransferItem)
    (h : history.length ≤ 100) : (appendHistory history item).length ≤ 100 := by
  simp only [appendHistory]
  split
  · case isTrue hgt => simp; omega
  · case isFalse hle => simpa using Nat.not_lt.mp (by simpa using hle)

/-- `Retry`'s history removal never lengthens the history. -/
theorem removeFailedFromHistory_length_le (history : List TransferItem) (id : Nat) :
    (removeFailedFromHistory history id).length ≤ history.length := by
  induction history with
  | nil => simp [removeFailedFromHistory]
  | cons t rest ih =>
      simp only [removeFailedFromHistory]
      split
      · simp
      · simpa using Nat.succ_le_succ ih

/-- `Cancel` never removes an item from the queue. -/
theorem cancelInQueue_length_eq (q : List TransferItem) (id : Nat) :
    (cancelInQueue q id).1.length = q.length := by
  induction q with
  | nil => rfl
  | cons t rest ih =>
      simp only [cancelInQueue]
      split
      · split <;> simp
      · simpa using ih

/-- Every manager step keeps the history within the 100-item bound. -/
theorem tmStep_history_le {s s' : TMState} (hstep : TMStep s s')
    (h : s.history.length ≤ 100) : s'.history.length ≤ 100 := by
  cases hstep with
  | add direction localPath remotePath priority => exact h
  | schedule => rw [processQueue, processQueueAux_history_eq]; exact h
  | complete id err hex =>
      simp only [completeTransfer]
      cases hf : s.queue.find? (fun t => t.id == id) with
      | none => simp only [hf]; exact h
      | some t => simp only [hf]; exact appendHistory_length_le _ _ h
  | cancel id => exact h
  | cancelAll => exact h
  | pause id => exact h
  | resume id => exact h
  | retry id =>
      simp only [applyRetry]
      cases hf : s.history.find? (fun t => t.id == id && t.status == TransferStatus.failed) with
      | none => simp only [hf]; exact h
      | some t =>
          simp only [hf]
          exact Nat.le_trans (removeFailedFromHistory_length_le _ _) h
  | setMaxParallel n => exact h

/-- C2 amended: the history holds at most 100 items in every reachable
state; an item finishing execution is removed from the queue and appended to
the history through the bounded append, which — exactly at the bound —
evicts the oldest (front) entry and otherwise appends plainly; whereas
`Cancel` moves nothing into history and removes nothing from the live queue
(a Pending item it cancels stays in the queue marked Cancelled). -/
theorem c2_history_discipline (s : TMState) (hs : TMReachable s) :
    s.history.length ≤ 100
    ∧ (∀ id err t, s.queue.find? (fun x => x.id == id) = some t →
        (completeTransfer s id err).queue = removeFromQueue s.queue id
        ∧ (completeTransfer s id err).history
            = appendHistory s.history (finalizeItem t err)
        ∧ (completeTransfer s id err).history.length ≤ 100)
    ∧ (∀ x, 100 ≤ s.history.length → appendHistory s.history x = s.history.tail ++ [x])
    ∧ (∀ x, s.history.length < 100 → appendHistory s.history x = s.history ++ [x])
    ∧ (∀ id, (applyCancel s id).1.history = s.history
        ∧ (applyCancel s id).1.queue.length = s.queue.length) := by
  have hlen : s.history.length ≤ 100 := by
    induction hs with
    | init n => simp [initTM]
    | step hr hstep ih => exact tmStep_history_le hstep ih
  refine ⟨hlen, ?_, ?_, ?_, ?_⟩
  · intro id err t hf
    refine ⟨by simp [completeTransfer, hf], by simp [completeTransfer, hf], ?_⟩
    simp only [completeTransfer, hf]
    exact appendHistory_length_le _ _ hlen
  · intro x hge
    have h100 : s.history.length = 100 := Nat.le_antisymm hlen hge
    have hne : s.history ≠ [] := by
      intro hnil
      rw [hnil] at h100
      simp at h100
    simp only [appendHistory]
    rw [if_pos (by simp [h100])]
    cases hh : s.history with
    | nil => exact absurd hh hne
    | cons a rest => simp
  · intro x hlt
    simp only [appendHistory]
    rw [if_neg (by simp; omega)]
  · intro id
    exact ⟨rfl, cancelInQueue_length_eq s.queue id⟩

/-- Witness for C2's amended theorem: a fresh manager with one enqueued item
has a bounded history, and cancelling that item leaves the queue length and
the (empty) history unchanged. -/
theorem c2_history_discipline_witness :
    (addTransfer (initTM 1) .upload "a" "b" 0).history.length ≤ 100
    ∧ (applyCancel (addTransfer (initTM 1) .upload "a" "b" 0) 1).1.history
        = (addTransfer (initTM 1) .upload "a" "b" 0).history
    ∧ (applyCancel (addTransfer (initTM 1) .upload "a" "b" 0) 1).1.queue.length
        = (addTransfer (initTM 1) .upload "a" "b" 0).queue.length :=
  have h := c2_history_discipline _ (.step (.init 1) (.add _ .upload "a" "b" 0))
  ⟨h.1, (h.2.2.2.2 1).1, (h.2.2.2.2 1).2⟩

/-- C2, counterexample to the claim as stated: cancel a Pending item on a
fresh manager (no scheduling pass has run).  The item reaches the terminal
status Cancelled, yet it stays in the live queue and the history stays
empty — it is never moved to history. -/
theorem c2_counterexample :
    ∃ s : TMState, TMReachable s
      ∧ (∃ t ∈ s.queue, t.status = TransferStatus.cancelled)
      ∧ s.history = [] := by
  refine ⟨(applyCancel (addTransfer (initTM 1) .upload "a" "b" 0) 1).1, ?_, by decide, rfl⟩
  exact .step (.step (.init 1) (.add _ .upload "a" "b" 0)) (.cancel _ 1)

end SecureFtp
